import Mathlib

/-!
# The aggregation pipeline of `teater_impact_of_students.py`, shallowly embedded

This file embeds the pure aggregation/merge pipeline of `generate_reports`
(`src/teater_impact_of_students.py`, lines 555-628) and proves / refutes the
specification's claims about it.

Modelling choices, each justified by the source:

* A category table (the return value of one `get_*_data()` extractor) is a
  `Tbl`: a `college_id` key (`cid : Int`), the denormalised `college_name`
  (`cname`), and a list of numeric metric cells (`vals : List Int`) aligned
  with the metric column labels (`cols`).  Every metric cell produced by the
  extractors is a SQL `COUNT(...)` aggregate or a literal `0`, hence an exact
  integer; pandas may store such a column as `float64`, but the float always
  holds the integer exactly, so the value semantics of the pipeline is over
  `Int`.  The `int64`/`float64` distinction, which the spec's coercion claim
  is about, is tracked separately as a per-column dtype flag
  (`dtys : List Bool`, `true` = `float64`).

* A pandas left merge can leave cells unmatched (`NaN`); merged intermediate
  tables therefore carry `Option Int` cells (`none` = `NaN`), and
  `fillna(0)` maps `none` to `0`.

* `pd.merge(left, right, on=keys, how="left")` emits, for every left row in
  order, one output row per matching right row, or a single `NaN`-padded row
  when there is no match.  `mergeLeft` and `attachCat` reproduce exactly
  that, including the row multiplication on duplicate keys.

* `sort_values(by="total", ascending=False)` guarantees only that the rows
  come out ordered non-increasingly by the key: the default
  `kind='quicksort'` is numpy introsort, which is documented unstable
  above its 16-element insertion-sort cutoff, so the relative order of
  tied rows is implementation-defined.  The embedding must be a function,
  so `sortRowsDesc` fixes one admissible outcome (the stable descending
  insertion sort); every property proved through it is invariant under
  permutations of equal-key rows — sums, row counts, row membership, the
  Total row's position, dense post-sort numbering — and therefore holds
  no matter which tie order the library produces.  Tie-order-sensitive
  statements are deliberately not claimed through this model.

* `.astype(int)` on a float column holding exact integers is the identity on
  values; on dtypes it unconditionally produces `int64`.  The summary
  builder therefore keeps cell values unchanged at that step and sets all
  seven numeric column dtypes to `false` (= `int64`).

* No operation on the `generate_reports` path can raise for empty inputs:
  `pd.read_sql` always returns the selected column labels even for zero
  rows, so `teach_df[["college_id", "college_name"]]` succeeds on an empty
  roster and the whole pipeline is total.  The embedding is accordingly a
  total function.
-/

namespace Teater

/-- One row of a category table: the `college_id` key, the denormalised
`college_name`, and the numeric metric cells in column order. -/
structure TRow where
  cid : Int
  cname : String
  vals : List Int
deriving DecidableEq

/-- A category table as produced by one extractor: metric column labels
(beyond the two key/label columns), their pandas dtypes (`true` = `float64`,
`false` = `int64`), and the rows. -/
structure Tbl where
  cols : List String
  dtys : List Bool
  rows : List TRow
deriving DecidableEq

/-- The list of `college_id` keys of a table, in row order. -/
def Tbl.cids (t : Tbl) : List Int := t.rows.map TRow.cid

/-- Lines 570-572: `if "name" in df.columns: df.drop(columns=["name"],
inplace=True)`.  Drops every metric column labelled `"name"` together with
its cells and dtype.  The real extractor tables label the name column
`college_name`, never `name`, so on every reachable input this is the
identity. -/
def dropNameCol (t : Tbl) : Tbl :=
  if "name" ∈ t.cols then
    { cols := ((t.cols.zip t.dtys).filter (fun p => p.1 ≠ "name")).map Prod.fst,
      dtys := ((t.cols.zip t.dtys).filter (fun p => p.1 ≠ "name")).map Prod.snd,
      rows := t.rows.map (fun r =>
        { r with vals := ((t.cols.zip r.vals).filter (fun p => p.1 ≠ "name")).map Prod.snd }) }
  else t

/-- The six category tables, in the fixed order of the `dfs` list
(line 569) and of the `dfs_dict` dictionary (lines 590-597). -/
structure SixTbl where
  teach : Tbl
  engage : Tbl
  assess : Tbl
  track : Tbl
  analyse : Tbl
  remediate : Tbl
deriving DecidableEq

/-- The `dfs` list of line 569. -/
def SixTbl.toList (s : SixTbl) : List Tbl :=
  [s.teach, s.engage, s.assess, s.track, s.analyse, s.remediate]

/-- The six category labels, in `dfs_dict` insertion order (lines 590-597). -/
def catNames : List String := ["teach", "engage", "assess", "track", "analyse", "remediate"]

/-- The `(label, table)` pairs iterated by the summary loop (line 601). -/
def SixTbl.pairs (s : SixTbl) : List (String × Tbl) := catNames.zip s.toList

/-- The in-place `name`-column drop applied to all six tables (lines 570-572). -/
def SixTbl.dropNames (s : SixTbl) : SixTbl :=
  ⟨dropNameCol s.teach, dropNameCol s.engage, dropNameCol s.assess,
   dropNameCol s.track, dropNameCol s.analyse, dropNameCol s.remediate⟩

/-- A row of a merged intermediate table; `none` models a pandas `NaN`. -/
structure MRow where
  cid : Int
  cname : String
  vals : List (Option Int)
deriving DecidableEq

/-- A merged intermediate table (the running accumulator of the
`reduce(lambda left, right: pd.merge(...), dfs)` fold of lines 576-579). -/
structure MTable where
  cols : List String
  rows : List MRow
deriving DecidableEq

/-- A category table viewed as a merge accumulator (no `NaN` cells: every
extractor ends in `fillna(0)`). -/
def Tbl.toM (t : Tbl) : MTable :=
  ⟨t.cols, t.rows.map (fun r => ⟨r.cid, r.cname, r.vals.map some⟩)⟩

/-- The `(college_id, college_name)` join-key test of the detail merge. -/
def keyMatch (c : Int) (n : String) (srow : TRow) : Bool :=
  srow.cid = c && srow.cname = n

/-- Model of `pd.merge(left, right, on=["college_id", "college_name"],
how="left")` (line 577): for each left row in order, one output row per right row whose
`(college_id, college_name)` pair matches; a single `NaN`-padded row when
nothing matches.  Right-only rows are dropped. -/
def mergeLeft (acc : MTable) (t : Tbl) : MTable :=
  { cols := acc.cols ++ t.cols,
    rows := acc.rows.flatMap (fun r =>
      match t.rows.filter (keyMatch r.cid r.cname) with
      | [] => [⟨r.cid, r.cname, r.vals ++ t.cols.map (fun _ => (none : Option Int))⟩]
      | ms => ms.map (fun srow => ⟨r.cid, r.cname, r.vals ++ srow.vals.map some⟩)) }

/-- The tables merged onto the Teach accumulator, in list order. -/
def SixTbl.tail5 (s : SixTbl) : List Tbl :=
  [s.engage, s.assess, s.track, s.analyse, s.remediate]

/-- The `reduce` fold of lines 575-579: left-associative left merges seeded
with the first (Teach) table. -/
def mergedDetail (s : SixTbl) : MTable :=
  List.foldl mergeLeft s.teach.toM s.tail5

/-- A row of the final detail (`combined_df`) table: sequence number,
keys, zero-filled metric cells, and the `college_usage` row sum. -/
structure DRow where
  sno : Nat
  cid : Int
  cname : String
  vals : List Int
  usage : Int
deriving DecidableEq

/-- The detail (`combined_df`) table. -/
structure DTable where
  cols : List String
  rows : List DRow
deriving DecidableEq

/-- Lines 583-587 applied per row: `college_usage` is the sum of every
numeric cell except `college_id` (i.e. of all metric cells), and `S.No` is
`range(1, len + 1)`. -/
def numberDetail (k : Nat) : List (Int × String × List Int) → List DRow
  | [] => []
  | (c, n, vs) :: rest => ⟨k, c, n, vs, vs.sum⟩ :: numberDetail (k + 1) rest

/-- Lines 574-587: the merged detail table after `fillna(0)`, with
`college_usage` and `S.No` columns added. -/
def buildDetail (s : SixTbl) : DTable :=
  ⟨(mergedDetail s).cols,
   numberDetail 1 ((mergedDetail s).rows.map (fun r => (r.cid, r.cname, r.vals.map (fun v => v.getD 0))))⟩

/-- A row of the summary accumulator `result_df` before `fillna`: keys plus
one optional per-category total per processed category. -/
structure SAccRow where
  cid : Int
  cname : String
  cats : List (Option Int)
deriving DecidableEq

/-- The summary accumulator `result_df` together with its column labels. -/
structure SAcc where
  cols : List String
  rows : List SAccRow
deriving DecidableEq

/-- Line 599: `result_df = teach_df[["college_id", "college_name"]].copy()`. -/
def rosterAcc (t : Tbl) : SAcc :=
  ⟨["college_id", "college_name"], t.rows.map (fun r => ⟨r.cid, r.cname, []⟩)⟩

/-- One iteration of the summary loop (lines 601-604): the per-row category
total `df[name] = df[numeric_cols].sum(axis=1)` is the sum of the table's
metric cells (every metric column is numeric and `college_id` is excluded),
and `result_df = result_df.merge(df[["college_id", name]], on="college_id",
how="left")` left-merges that single column on `college_id` alone. -/
def attachCat (acc : SAcc) (p : String × Tbl) : SAcc :=
  { cols := acc.cols ++ [p.1],
    rows := acc.rows.flatMap (fun r =>
      match p.2.rows.filter (fun srow => srow.cid = r.cid) with
      | [] => [⟨r.cid, r.cname, r.cats ++ [none]⟩]
      | ms => ms.map (fun srow => ⟨r.cid, r.cname, r.cats ++ [some srow.vals.sum]⟩)) }

/-- The whole summary loop of lines 601-604. -/
def attachAll (s : SixTbl) : SAcc :=
  List.foldl attachCat (rosterAcc s.teach) s.pairs

/-- A summary row after `fillna(0)` and the `total` column (lines 606-607),
still in pre-sort (roster) order. -/
structure PRow where
  cid : Int
  cname : String
  cats : List Int
  total : Int
deriving DecidableEq

/-- Lines 606-607: `result_df.fillna(0)` and
`result_df["total"] = result_df[[six cats]].sum(axis=1)`. -/
def presortRows (s : SixTbl) : List PRow :=
  (attachAll s).rows.map (fun r =>
    ⟨r.cid, r.cname, r.cats.map (fun v => v.getD 0), (r.cats.map (fun v => v.getD 0)).sum⟩)

/-- Insertion step of the descending sort: walk past rows with strictly
larger `total`, insert before the first row whose `total` is `≤` ours. -/
def insRow (r : PRow) : List PRow → List PRow
  | [] => [r]
  | x :: xs => if r.total < x.total then x :: insRow r xs else r :: x :: xs

/-- Line 608: `result_df.sort_values(by="total", ascending=False)`.  The
program guarantees only the non-increasing key order (numpy's default
quicksort carries no tie-order guarantee); this function fixes one
admissible outcome, and only tie-order-insensitive properties are proved
through it (see the header note). -/
def sortRowsDesc (l : List PRow) : List PRow := l.foldr insRow []

/-- A cell of the `S.No` / `college_id` summary columns, which hold integers
for real rows and sentinel strings (`"Total"`, `"-"`) in the Total row. -/
inductive PCell where
  | int : Int → PCell
  | str : String → PCell
deriving DecidableEq

/-- A row of the final summary table. -/
structure SRow where
  sno : PCell
  cid : PCell
  cname : String
  cats : List Int
  total : Int
deriving DecidableEq

/-- Line 609: `result_df.insert(0, "S.No", range(1, len + 1))`, applied to
the sorted rows.  The later `.astype(int)` (lines 611-614) is the identity
on the integer cell values and is accounted for in the dtype calculus. -/
def numberSorted (k : Nat) : List PRow → List SRow
  | [] => []
  | r :: rest =>
      ⟨PCell.int (k : Int), PCell.int r.cid, r.cname, r.cats, r.total⟩ :: numberSorted (k + 1) rest

/-- Lines 617-623: the synthetic Total row.  Label cells are the sentinels
`"Total"` / `"-"` / `"Overall Total"`; each numeric cell is the column-wise
sum over the (already coerced) real rows. -/
def totalRowOf (rs : List SRow) : SRow :=
  ⟨PCell.str "Total", PCell.str "-", "Overall Total",
   (List.range 6).map (fun j => (rs.map (fun r => r.cats.getD j 0)).sum),
   (rs.map SRow.total).sum⟩

/-- The real (non-Total) rows of the summary table, sorted and numbered. -/
def realRowsOf (s : SixTbl) : List SRow :=
  numberSorted 1 (sortRowsDesc (presortRows s))

/-- dtype of `df[numeric_cols].sum(axis=1)` (line 603): `float64` when the
numeric column set is empty (pandas returns a float zero series) or when any
summand column is `float64`; `int64` otherwise. -/
def catSumDty (t : Tbl) : Bool := t.cols.isEmpty || t.dtys.any id

/-- dtype of a category column of `result_df` after the left merge and
`fillna` (lines 604-606): a merge that leaves some roster row unmatched
introduces `NaN` and forces `float64`; `fillna(0)` does not change the
dtype back. -/
def mergedCatDty (roster : Tbl) (t : Tbl) : Bool :=
  catSumDty t || roster.rows.any (fun r => !(t.rows.any (fun srow => srow.cid = r.cid)))

/-- dtypes of the seven numeric summary columns (six categories then
`total`) just before the `.astype(int)` loop; `total` (line 607) is a sum of
the six and is `float64` as soon as one of them is. -/
def presortDtys (s : SixTbl) : List Bool :=
  (s.pairs.map (fun p => mergedCatDty s.teach p.2)) ++
    [(s.pairs.map (fun p => mergedCatDty s.teach p.2)).any id]

/-- The final summary table: column labels, dtypes of the seven numeric
columns, and rows. -/
structure STable where
  cols : List String
  dtys : List Bool
  rows : List SRow
deriving DecidableEq

/-- Lines 599-625: the summary (`result_df`) table.  Columns are the roster
pair, the six category labels in loop order, and `total`, with `S.No`
inserted at position 0.  The `.astype(int)` loop (lines 611-614) coerces all
seven numeric columns to `int64` (identity on the integer cell values), and
the Total row is appended afterwards (line 625). -/
def buildSummaryT (s : SixTbl) : STable :=
  ⟨"S.No" :: ((attachAll s).cols ++ ["total"]),
   (presortDtys s).map (fun _ => false),
   realRowsOf s ++ [totalRowOf (realRowsOf s)]⟩

/-- Lines 601-603 as a table-level effect: `df[name] = df[numeric].sum(axis=1)`
appends a fresh column `name` holding the per-row metric sum, or overwrites
the existing column of that label (the sum is computed before the
assignment, so it includes the old column's values in that case). -/
def addTotalCol (nm : String) (t : Tbl) : Tbl :=
  if nm ∈ t.cols then
    { cols := t.cols,
      dtys := t.dtys.set (t.cols.findIdx (fun c => c = nm)) (catSumDty t),
      rows := t.rows.map (fun r =>
        ⟨r.cid, r.cname, r.vals.set (t.cols.findIdx (fun c => c = nm)) r.vals.sum⟩) }
  else
    { cols := t.cols ++ [nm],
      dtys := t.dtys ++ [catSumDty t],
      rows := t.rows.map (fun r => ⟨r.cid, r.cname, r.vals ++ [r.vals.sum]⟩) }

/-- The state of the six input tables after the summary loop has run: each
table has been mutated in place by its `df[name] = ...` assignment. -/
def mutTables (s : SixTbl) : SixTbl :=
  ⟨addTotalCol "teach" s.teach, addTotalCol "engage" s.engage,
   addTotalCol "assess" s.assess, addTotalCol "track" s.track,
   addTotalCol "analyse" s.analyse, addTotalCol "remediate" s.remediate⟩

/-- The function `generate_reports` (lines 555-628), given the six extractor
outputs:
drops stray `name` columns in place, builds `combined_df` (the detail
table), then builds `result_df` (the summary table), and leaves the six
table objects mutated by the summary loop.  The detail table is computed
before the summary loop, hence from the unmutated tables. -/
def generateReports (s : SixTbl) : DTable × STable × SixTbl :=
  (buildDetail s.dropNames, buildSummaryT s.dropNames, mutTables s.dropNames)

/-- The value of `df[name]` (the per-unit category total) for the unit with
key `c`, or `none` when the unit is absent from the category table. -/
def lookupCatTotal (t : Tbl) (c : Int) : Option Int :=
  (t.rows.find? (fun srow => srow.cid = c)).map (fun srow => srow.vals.sum)

/-- The grand total of one unit across the six categories, zero-filled. -/
def unitTotal (s : SixTbl) (c : Int) : Int :=
  (s.pairs.map (fun p => (lookupCatTotal p.2 c).getD 0)).sum

/-- The sum of every numeric metric cell of all six category tables. -/
def allCellsSum (s : SixTbl) : Int :=
  (s.toList.map (fun t => (t.rows.map (fun r => r.vals.sum)).sum)).sum

/-- The number of distinct `college_id` values in the union of the six
tables' unit sets. -/
def unionUnitCount (s : SixTbl) : Nat :=
  ((s.toList.flatMap Tbl.cids).dedup).length

/-- Well-formedness of a table: cell lists match the column list. -/
def Tbl.WF (t : Tbl) : Prop := ∀ r ∈ t.rows, r.vals.length = t.cols.length

instance (t : Tbl) : Decidable t.WF :=
  inferInstanceAs (Decidable (∀ r ∈ t.rows, r.vals.length = t.cols.length))

/-- The cell of the detail table in the row of unit `u` and the metric
column labelled `c` (`none` when the unit or the column is absent). -/
def DTable.cellAt (d : DTable) (u : Int) (c : String) : Option Int :=
  (d.rows.find? (fun r => r.cid = u)).bind
    (fun r => r.vals.get? (d.cols.findIdx (fun x => x = c)))

/-- The `i`-th of the six category tables, in `dfs` order. -/
def SixTbl.nth (s : SixTbl) (i : Fin 6) : Tbl :=
  s.toList.get (Fin.cast (by rfl) i)

/-! ## Generic list lemmas -/

theorem flatMap_eq_map {α β : Type} (f : α → List β) (g : α → β) (l : List α)
    (h : ∀ a ∈ l, f a = [g a]) : l.flatMap f = l.map g := by
  induction l with
  | nil => rfl
  | cons a l ih =>
      simp only [List.flatMap_cons, List.map_cons, h a (by simp)]
      simp only [List.singleton_append, List.cons.injEq, true_and]
      exact ih (fun a ha => h a (by simp [ha]))

theorem sum_map_ite_zero {α : Type} (l : List α) (key : α → Int) (c : Int) (v : Int)
    (h : c ∉ l.map key) : (l.map (fun a => if key a = c then v else 0)).sum = 0 := by
  induction l with
  | nil => rfl
  | cons a l ih =>
      simp only [List.map_cons, List.mem_cons, not_or] at h ⊢
      rw [List.sum_cons, if_neg (fun hc => h.1 hc.symm), ih h.2, add_zero]

theorem sum_map_ite_single {α : Type} (l : List α) (key : α → Int) (c : Int) (v : Int)
    (hnd : (l.map key).Nodup) (hc : c ∈ l.map key) :
    (l.map (fun a => if key a = c then v else 0)).sum = v := by
  induction l with
  | nil => simp at hc
  | cons a l ih =>
      simp only [List.map_cons, List.nodup_cons] at hnd
      rcases List.mem_cons.mp hc with h | h
      · rw [List.map_cons, List.sum_cons, if_pos h.symm,
          sum_map_ite_zero l key c v (h ▸ hnd.1), add_zero]
      · have hne : key a ≠ c := fun he => hnd.1 (he ▸ h)
        rw [List.map_cons, List.sum_cons, if_neg hne, ih hnd.2 h, zero_add]

theorem sum_range_getD (x : List Int) :
    ((List.range x.length).map (fun j => x.getD j 0)).sum = x.sum := by
  induction x with
  | nil => rfl
  | cons a x ih =>
      rw [List.length_cons, List.range_succ_eq_map, List.map_cons, List.sum_cons, List.map_map]
      have h1 : ((fun j => (a :: x).getD j 0) ∘ Nat.succ) = fun j => x.getD j 0 := by
        funext j
        simp [List.getD_cons_succ]
      rw [h1, ih, List.sum_cons, List.getD_cons_zero]

theorem sum_sum_swap {α β : Type} (L : List α) (P : List β) (f : α → β → Int) :
    (L.map (fun a => (P.map (fun b => f a b)).sum)).sum
      = (P.map (fun b => (L.map (fun a => f a b)).sum)).sum := by
  induction P with
  | nil => simp
  | cons b P ih =>
      simp only [List.map_cons, List.sum_cons]
      rw [← ih, ← List.sum_map_add]

theorem filter_eq_of_find?_nodup (rows : List TRow) (p : TRow → Bool) (c : Int)
    (hp : ∀ srow, p srow = true → srow.cid = c) (hnd : (rows.map TRow.cid).Nodup) :
    rows.filter p = ((rows.find? p).map (fun srow => [srow])).getD [] := by
  induction rows with
  | nil => rfl
  | cons a rest ih =>
      simp only [List.map_cons, List.nodup_cons] at hnd
      by_cases ha : p a
      · rw [List.filter_cons_of_pos ha, List.find?_cons_of_pos _ ha]
        have hrest : rest.filter p = [] := by
          rw [List.filter_eq_nil_iff]
          intro x hx hpx
          exact hnd.1 ((hp a ha ▸ hp x hpx) ▸ List.mem_map_of_mem TRow.cid hx)
        simp [hrest]
      · rw [List.filter_cons_of_neg (by simpa using ha), List.find?_cons_of_neg _ (by simpa using ha)]
        exact ih hnd.2

/-! ## `name`-column drop is the identity on the real tables -/

theorem dropNameCol_eq_self (t : Tbl) (h : "name" ∉ t.cols) : dropNameCol t = t := by
  rw [dropNameCol, if_neg h]

theorem dropNames_eq_self (s : SixTbl) (h : ∀ t ∈ s.toList, "name" ∉ t.cols) :
    s.dropNames = s := by
  have h1 := h s.teach (by simp [SixTbl.toList])
  have h2 := h s.engage (by simp [SixTbl.toList])
  have h3 := h s.assess (by simp [SixTbl.toList])
  have h4 := h s.track (by simp [SixTbl.toList])
  have h5 := h s.analyse (by simp [SixTbl.toList])
  have h6 := h s.remediate (by simp [SixTbl.toList])
  cases s
  rw [SixTbl.dropNames, dropNameCol_eq_self _ h1, dropNameCol_eq_self _ h2,
    dropNameCol_eq_self _ h3, dropNameCol_eq_self _ h4, dropNameCol_eq_self _ h5,
    dropNameCol_eq_self _ h6]

/-! ## Characterisation of the summary accumulator under unique keys -/

theorem attachCat_eq (acc : SAcc) (nm : String) (t : Tbl) (hnd : t.cids.Nodup) :
    attachCat acc (nm, t) =
      ⟨acc.cols ++ [nm],
       acc.rows.map (fun r => ⟨r.cid, r.cname, r.cats ++ [lookupCatTotal t r.cid]⟩)⟩ := by
  simp only [attachCat, SAcc.mk.injEq, true_and]
  refine flatMap_eq_map _ _ _ (fun r _ => ?_)
  have hfilter := filter_eq_of_find?_nodup t.rows (fun srow => srow.cid = r.cid) r.cid
    (fun srow hs => by simpa using hs) hnd
  rw [lookupCatTotal]
  rcases hfind : t.rows.find? (fun srow => srow.cid = r.cid) with _ | srow
  · rw [hfind] at hfilter
    simp only [Option.map, Option.getD] at hfilter
    simp [hfilter, hfind]
  · rw [hfind] at hfilter
    simp only [Option.map, Option.getD] at hfilter
    simp [hfilter, hfind]

theorem foldl_attachCat_eq (ps : List (String × Tbl)) :
    ∀ acc : SAcc, (∀ p ∈ ps, p.2.cids.Nodup) →
      List.foldl attachCat acc ps =
        ⟨acc.cols ++ ps.map Prod.fst,
         acc.rows.map (fun r =>
           ⟨r.cid, r.cname, r.cats ++ ps.map (fun p => lookupCatTotal p.2 r.cid)⟩)⟩ := by
  induction ps with
  | nil => intro acc _; simp
  | cons p ps ih =>
      intro acc hnd
      rw [List.foldl_cons]
      have hp : attachCat acc p =
          ⟨acc.cols ++ [p.1],
           acc.rows.map (fun r => ⟨r.cid, r.cname, r.cats ++ [lookupCatTotal p.2 r.cid]⟩)⟩ := by
        have := attachCat_eq acc p.1 p.2 (hnd p (by simp))
        simpa using this
      rw [hp, ih _ (fun q hq => hnd q (by simp [hq]))]
      simp only [List.map_cons, SAcc.mk.injEq, List.map_map]
      constructor
      · simp [List.append_assoc]
      · refine List.map_congr_left (fun r _ => ?_)
        simp [Function.comp, List.append_assoc]

theorem attachAll_eq (s : SixTbl) (hnd : ∀ t ∈ s.toList, t.cids.Nodup) :
    attachAll s =
      ⟨["college_id", "college_name"] ++ catNames,
       s.teach.rows.map (fun r =>
         ⟨r.cid, r.cname, s.pairs.map (fun p => lookupCatTotal p.2 r.cid)⟩)⟩ := by
  have hps : ∀ p ∈ s.pairs, p.2.cids.Nodup := by
    intro p hp
    exact hnd p.2 (List.of_mem_zip hp).2
  rw [attachAll, foldl_attachCat_eq s.pairs (rosterAcc s.teach) hps]
  have hfst : s.pairs.map Prod.fst = catNames := by
    cases s; rfl
  simp [rosterAcc, hfst, List.map_map, Function.comp]

theorem presortRows_eq (s : SixTbl) (hnd : ∀ t ∈ s.toList, t.cids.Nodup) :
    presortRows s =
      s.teach.rows.map (fun r =>
        ⟨r.cid, r.cname, s.pairs.map (fun p => (lookupCatTotal p.2 r.cid).getD 0),
         unitTotal s r.cid⟩) := by
  rw [presortRows, attachAll_eq s hnd]
  simp only [List.map_map]
  refine List.map_congr_left (fun r _ => ?_)
  simp only [List.map_map, Function.comp_def, unitTotal]

/-! ## Characterisation of the detail merge under unique keys -/

/-- The block of cells a right-hand table contributes to one merged row:
the matching row's cells, or one `NaN` per column when nothing matches. -/
def rowSeg (t : Tbl) (c : Int) (n : String) : List (Option Int) :=
  match t.rows.find? (keyMatch c n) with
  | some srow => srow.vals.map some
  | none => t.cols.map (fun _ => none)

theorem mergeLeft_eq (acc : MTable) (t : Tbl) (hnd : t.cids.Nodup) :
    mergeLeft acc t =
      ⟨acc.cols ++ t.cols,
       acc.rows.map (fun r => ⟨r.cid, r.cname, r.vals ++ rowSeg t r.cid r.cname⟩)⟩ := by
  simp only [mergeLeft, MTable.mk.injEq, true_and]
  refine flatMap_eq_map _ _ _ (fun r _ => ?_)
  have hfilter := filter_eq_of_find?_nodup t.rows (keyMatch r.cid r.cname) r.cid
    (fun srow hs => by
      simp only [keyMatch, Bool.and_eq_true, decide_eq_true_eq] at hs
      exact hs.1) hnd
  rw [rowSeg]
  rcases hfind : t.rows.find? (keyMatch r.cid r.cname) with _ | srow
  · have hfil2 : t.rows.filter (keyMatch r.cid r.cname) = [] := by
      rw [hfind] at hfilter
      exact hfilter
    rw [hfil2]
  · have hfil2 : t.rows.filter (keyMatch r.cid r.cname) = [srow] := by
      rw [hfind] at hfilter
      exact hfilter
    rw [hfil2]
    rfl

theorem foldl_mergeLeft_eq (ts : List Tbl) :
    ∀ m : MTable, (∀ t ∈ ts, t.cids.Nodup) →
      List.foldl mergeLeft m ts =
        ⟨m.cols ++ (ts.map Tbl.cols).flatten,
         m.rows.map (fun r =>
           ⟨r.cid, r.cname, r.vals ++ (ts.map (fun t => rowSeg t r.cid r.cname)).flatten⟩)⟩ := by
  induction ts with
  | nil => intro m _; simp
  | cons t ts ih =>
      intro m hnd
      rw [List.foldl_cons, mergeLeft_eq m t (hnd t (by simp)),
        ih _ (fun q hq => hnd q (by simp [hq]))]
      simp only [List.map_cons, List.flatten_cons, MTable.mk.injEq, List.map_map]
      constructor
      · simp [List.append_assoc]
      · refine List.map_congr_left (fun r _ => ?_)
        simp [Function.comp_def, List.append_assoc]

theorem mergedDetail_eq (s : SixTbl) (hnd : ∀ t ∈ s.toList, t.cids.Nodup) :
    mergedDetail s =
      ⟨s.teach.cols ++ (s.tail5.map Tbl.cols).flatten,
       s.teach.rows.map (fun r =>
         ⟨r.cid, r.cname, r.vals.map some ++ (s.tail5.map (fun t => rowSeg t r.cid r.cname)).flatten⟩)⟩ := by
  have htl : ∀ t ∈ s.tail5, t.cids.Nodup := by
    intro t ht
    refine hnd t ?_
    simp only [SixTbl.tail5, List.mem_cons, List.not_mem_nil, or_false] at ht
    simp [SixTbl.toList, List.mem_cons]
    tauto
  rw [mergedDetail, foldl_mergeLeft_eq s.tail5 s.teach.toM htl]
  simp only [Tbl.toM, List.map_map]
  rfl

/-! ## The descending sort: permutation, sortedness, stability -/

theorem insRow_perm (r : PRow) (l : List PRow) : (insRow r l).Perm (r :: l) := by
  induction l with
  | nil => rfl
  | cons x xs ih =>
      rw [insRow]
      by_cases h : r.total < x.total
      · rw [if_pos h]
        exact (ih.cons x).trans (List.Perm.swap r x xs)
      · rw [if_neg h]

theorem sortRowsDesc_perm (l : List PRow) : (sortRowsDesc l).Perm l := by
  induction l with
  | nil => rfl
  | cons r l ih =>
      rw [sortRowsDesc, List.foldr_cons]
      exact (insRow_perm r _).trans (ih.cons r)

theorem insRow_pairwise (r : PRow) (l : List PRow)
    (h : l.Pairwise (fun a b => b.total ≤ a.total)) :
    (insRow r l).Pairwise (fun a b => b.total ≤ a.total) := by
  induction l with
  | nil => simp [insRow]
  | cons x xs ih =>
      rw [insRow]
      rcases List.pairwise_cons.mp h with ⟨hx, hxs⟩
      by_cases hc : r.total < x.total
      · rw [if_pos hc]
        refine List.pairwise_cons.mpr ⟨?_, ih hxs⟩
        intro b hb
        have hb2 : b ∈ r :: xs := (insRow_perm r xs).subset hb
        rcases List.mem_cons.mp hb2 with hb3 | hb3
        · subst hb3
          exact le_of_lt hc
        · exact hx b hb3
      · rw [if_neg hc]
        refine List.pairwise_cons.mpr ⟨?_, h⟩
        intro b hb
        rcases List.mem_cons.mp hb with hb | hb
        · exact hb ▸ le_of_not_lt hc
        · exact le_trans (hx b hb) (le_of_not_lt hc)

theorem sortRowsDesc_pairwise (l : List PRow) :
    (sortRowsDesc l).Pairwise (fun a b => b.total ≤ a.total) := by
  induction l with
  | nil => simp [sortRowsDesc]
  | cons r l ih =>
      rw [sortRowsDesc, List.foldr_cons]
      exact insRow_pairwise r _ ih

/-! ## Sequence numbering lemmas -/

theorem numberSorted_length (k : Nat) (l : List PRow) :
    (numberSorted k l).length = l.length := by
  induction l generalizing k with
  | nil => rfl
  | cons r l ih => simp [numberSorted, ih]

theorem numberSorted_map_sno (k : Nat) (l : List PRow) :
    (numberSorted k l).map SRow.sno = (List.range' k l.length).map (fun j => PCell.int (Int.ofNat j)) := by
  induction l generalizing k with
  | nil => rfl
  | cons r l ih =>
      rw [numberSorted, List.map_cons, List.length_cons, List.range'_succ, List.map_cons, ih]
      rfl

theorem numberSorted_map_total (k : Nat) (l : List PRow) :
    (numberSorted k l).map SRow.total = l.map PRow.total := by
  induction l generalizing k with
  | nil => rfl
  | cons r l ih => rw [numberSorted, List.map_cons, List.map_cons, ih]

theorem numberSorted_map_cid (k : Nat) (l : List PRow) :
    (numberSorted k l).map SRow.cid = l.map (fun r => PCell.int r.cid) := by
  induction l generalizing k with
  | nil => rfl
  | cons r l ih => rw [numberSorted, List.map_cons, List.map_cons, ih]

theorem numberSorted_mem (k : Nat) (l : List PRow) :
    ∀ sr ∈ numberSorted k l, ∃ r ∈ l, sr.cid = PCell.int r.cid ∧ sr.cats = r.cats ∧ sr.total = r.total := by
  induction l generalizing k with
  | nil => intro sr h; simp [numberSorted] at h
  | cons r l ih =>
      intro sr hsr
      rw [numberSorted] at hsr
      rcases List.mem_cons.mp hsr with h | h
      · exact ⟨r, by simp, by simp [h]⟩
      · rcases ih (k + 1) sr h with ⟨r', hr', hp⟩
        exact ⟨r', by simp [hr'], hp⟩

theorem mem_numberSorted (k : Nat) (l : List PRow) (r : PRow) (hr : r ∈ l) :
    ∃ sr ∈ numberSorted k l, sr.cid = PCell.int r.cid ∧ sr.cats = r.cats ∧ sr.total = r.total := by
  induction l generalizing k with
  | nil => simp at hr
  | cons x l ih =>
      rw [numberSorted]
      rcases List.mem_cons.mp hr with h | h
      · rcases h with rfl
        exact ⟨_, List.mem_cons_self _ _, rfl, rfl, rfl⟩
      · rcases ih (k + 1) h with ⟨sr, hsr, hp⟩
        exact ⟨sr, by simp [hsr], hp⟩

theorem numberSorted_pairwise (k : Nat) (l : List PRow)
    (h : l.Pairwise (fun a b => b.total ≤ a.total)) :
    (numberSorted k l).Pairwise (fun a b => b.total ≤ a.total) := by
  induction l generalizing k with
  | nil => simp [numberSorted]
  | cons r l ih =>
      rw [numberSorted]
      rcases List.pairwise_cons.mp h with ⟨hr, hl⟩
      refine List.pairwise_cons.mpr ⟨?_, ih (k + 1) hl⟩
      intro sr hsr
      rcases numberSorted_mem (k + 1) l sr hsr with ⟨r', hr', _, _, ht⟩
      rw [ht]
      exact hr r' hr'

theorem numberDetail_length (k : Nat) (l : List (Int × String × List Int)) :
    (numberDetail k l).length = l.length := by
  induction l generalizing k with
  | nil => rfl
  | cons x l ih =>
      rcases x with ⟨c, n, vs⟩
      simp [numberDetail, ih]

theorem numberDetail_map_sno (k : Nat) (l : List (Int × String × List Int)) :
    (numberDetail k l).map DRow.sno = List.range' k l.length := by
  induction l generalizing k with
  | nil => rfl
  | cons x l ih =>
      rcases x with ⟨c, n, vs⟩
      rw [numberDetail, List.map_cons, List.length_cons, List.range'_succ, ih]

theorem mem_numberDetail (k : Nat) (l : List (Int × String × List Int))
    (x : Int × String × List Int) (hx : x ∈ l) :
    ∃ dr ∈ numberDetail k l, dr.cid = x.1 ∧ dr.cname = x.2.1 ∧ dr.vals = x.2.2 := by
  induction l generalizing k with
  | nil => simp at hx
  | cons y l ih =>
      rcases y with ⟨c, n, vs⟩
      rw [numberDetail]
      rcases List.mem_cons.mp hx with h | h
      · rcases h with rfl
        exact ⟨_, List.mem_cons_self _ _, rfl, rfl, rfl⟩
      · rcases ih (k + 1) h with ⟨dr, hdr, hp⟩
        exact ⟨dr, by simp [hdr], hp⟩

/-! ## Uniqueness helper -/

theorem eq_of_mem_nodup_map {α β : Type} (f : α → β) (l : List α)
    (hnd : (l.map f).Nodup) {a b : α} (ha : a ∈ l) (hb : b ∈ l) (he : f a = f b) :
    a = b := by
  induction l with
  | nil => simp at ha
  | cons x l ih =>
      rw [List.map_cons, List.nodup_cons] at hnd
      rcases List.mem_cons.mp ha with ha2 | ha2
      · rcases List.mem_cons.mp hb with hb2 | hb2
        · rw [ha2, hb2]
        · rw [ha2] at he
          have h1 := List.mem_map_of_mem f hb2
          rw [← he] at h1
          exact absurd h1 hnd.1
      · rcases List.mem_cons.mp hb with hb2 | hb2
        · rw [hb2] at he
          have h1 := List.mem_map_of_mem f ha2
          rw [he] at h1
          exact absurd h1 hnd.1
        · exact ih hnd.2 ha2 hb2

theorem map_const_eq_replicate {α β : Type} (l : List α) (b : β) :
    l.map (fun _ => b) = List.replicate l.length b := by
  induction l with
  | nil => rfl
  | cons x l ih => simp [ih, List.replicate_succ]

/-! ## Small emptiness helpers -/

theorem dropNameCol_rows_nil (t : Tbl) (h : t.rows = []) : (dropNameCol t).rows = [] := by
  rw [dropNameCol]
  by_cases hc : "name" ∈ t.cols
  · rw [if_pos hc]
    simp [h]
  · rw [if_neg hc]
    exact h

theorem foldl_attachCat_rows_nil (ps : List (String × Tbl)) :
    ∀ acc : SAcc, acc.rows = [] → (List.foldl attachCat acc ps).rows = [] := by
  induction ps with
  | nil => intro acc h; exact h
  | cons p ps ih =>
      intro acc h
      rw [List.foldl_cons]
      exact ih _ (by simp [attachCat, h])

/-! ## Concrete inputs for scenarios, counterexamples and witnesses -/

/-- An empty category table (zero rows; no metric columns). -/
def emptyTbl : Tbl := ⟨[], [], []⟩

/-- The concrete scenario input of spec §8: Teach has units 1 (attendance 5)
and 2 (attendance 0), Engage has unit 1 (notify 2), Assess/Track/Remediate
are empty, Analyse has both units with 0. -/
def scnSix : SixTbl :=
  ⟨⟨["attendance"], [false], [⟨1, "U1", [5]⟩, ⟨2, "U2", [0]⟩]⟩,
   ⟨["notify"], [false], [⟨1, "U1", [2]⟩]⟩,
   emptyTbl, emptyTbl,
   ⟨["total_analyse"], [false], [⟨1, "U1", [0]⟩, ⟨2, "U2", [0]⟩]⟩,
   emptyTbl⟩

/-- Six tables whose unit sets are disjoint: Teach only has unit 1, Engage
only unit 2. -/
def disjSix : SixTbl :=
  ⟨⟨["attendance_count"], [false], [⟨1, "A", [5]⟩]⟩,
   ⟨["notify_count"], [false], [⟨2, "B", [2]⟩]⟩,
   emptyTbl, emptyTbl, emptyTbl, emptyTbl⟩

/-- An input whose seed roster (Teach) table has no rows while another
category table is nonempty. -/
def emptySix : SixTbl :=
  ⟨⟨["attendance_count"], [false], []⟩,
   ⟨["notify_count"], [false], [⟨2, "B", [2]⟩]⟩,
   emptyTbl, emptyTbl, emptyTbl, emptyTbl⟩

/-- A general-purpose witness input: three units, a grand-total tie between
units 1 and 2 (both 7, unit 3 has 3), unit 2 absent from Engage, pairwise
distinct metric column labels, one `float64` input column. -/
def exS : SixTbl :=
  ⟨⟨["att"], [false], [⟨1, "A", [5]⟩, ⟨2, "B", [3]⟩, ⟨3, "C", [2]⟩]⟩,
   ⟨["notif"], [true], [⟨1, "A", [2]⟩, ⟨3, "C", [1]⟩]⟩,
   ⟨["asmt"], [false], []⟩,
   ⟨["fb"], [false], [⟨2, "B", [4]⟩]⟩,
   ⟨["anl"], [false], [⟨1, "A", [0]⟩, ⟨2, "B", [0]⟩, ⟨3, "C", [0]⟩]⟩,
   ⟨["rem"], [false], []⟩⟩

/-! ## Claim C6 -/

/-- C6: on the concrete input Teach=[{unit 1: attendance=5},{unit 2:
attendance=0}], Engage=[{unit 1: notify=2}], Assess=[], Track=[],
Analyse=[{unit1:0},{unit2:0}], Remediate=[], the pipeline produces summary
rows with unit 1 total 7 and unit 2 total 0, ordered [unit1, unit2, Total],
and the Total row's total is 7. -/
theorem scenario_two_units :
    ((generateReports scnSix).2.1).rows.map SRow.cid = [PCell.int 1, PCell.int 2, PCell.str "-"] ∧
    ((generateReports scnSix).2.1).rows.map SRow.total = [7, 0, 7] ∧
    ((generateReports scnSix).2.1).rows.map SRow.sno
      = [PCell.int 1, PCell.int 2, PCell.str "Total"] := by
  decide

/-! ## Claim C7 -/

/-- C7: the sequence columns of the detail table and of the summary's
non-Total rows are exactly the dense ranges `1..N`, numbered independently;
for the summary the numbers are assigned to the already-sorted rows; the
synthetic Total row is always last and sits outside the sorted, numbered
prefix. -/
theorem sequence_numbers_dense (s : SixTbl) :
    (generateReports s).1.rows.map DRow.sno = List.range' 1 ((generateReports s).1.rows.length) ∧
    ((generateReports s).2.1).rows.dropLast.map SRow.sno
      = (List.range' 1 (((generateReports s).2.1).rows.dropLast.length)).map
          (fun j => PCell.int (Int.ofNat j)) ∧
    ((generateReports s).2.1).rows.getLast? = some (totalRowOf (realRowsOf s.dropNames)) ∧
    ((generateReports s).2.1).rows.dropLast
      = numberSorted 1 (sortRowsDesc (presortRows s.dropNames)) := by
  refine ⟨?_, ?_, ?_, ?_⟩
  · simp only [generateReports, buildDetail]
    rw [numberDetail_map_sno, numberDetail_length]
  · simp only [generateReports, buildSummaryT, List.dropLast_concat, realRowsOf]
    rw [numberSorted_map_sno, numberSorted_length]
  · simp only [generateReports, buildSummaryT]
    exact List.getLast?_concat _
  · simp only [generateReports, buildSummaryT, List.dropLast_concat, realRowsOf]

/-! ## Claim C2 -/

/-- C2 counterexample: on `disjSix` (Teach = {unit 1}, Engage = {unit 2})
the detail table has 1 row while the union of the six unit sets has 2
distinct units, refuting the claimed row count. -/
theorem detail_union_rowcount_cex :
    ¬ ((generateReports disjSix).1.rows.length = unionUnitCount disjSix) := by
  decide

/-- C2 (amended): the detail table produced by the merge step has exactly as
many rows as the first (Teach) table — the fold is a chain of left joins
seeded from Teach, so units of the other tables outside Teach's unit set are
dropped (assuming per-table unique keys, as produced by `GROUP BY c.id`). -/
theorem detail_rowcount_eq_teach (s : SixTbl)
    (hname : ∀ t ∈ s.toList, "name" ∉ t.cols)
    (hnd : ∀ t ∈ s.toList, t.cids.Nodup) :
    (generateReports s).1.rows.length = s.teach.rows.length := by
  rw [generateReports, dropNames_eq_self s hname]
  simp only [buildDetail]
  rw [numberDetail_length, List.length_map, mergedDetail_eq s hnd, List.length_map]

theorem detail_rowcount_eq_teach_witness :
    (∀ t ∈ exS.toList, "name" ∉ t.cols) ∧ (∀ t ∈ exS.toList, t.cids.Nodup) ∧
      (generateReports exS).1.rows.length = exS.teach.rows.length :=
  ⟨by decide, by decide, detail_rowcount_eq_teach exS (by decide) (by decide)⟩

/-! ## Claim C4 -/

/-- C4 counterexample: the summary table of a concrete run has `N + 1` rows
but 10 columns, so the claimed `N + 1` rows with 9 columns is false. -/
theorem summary_shape_cex :
    ¬ ((generateReports exS).2.1.rows.length = exS.teach.rows.length + 1 ∧
       (generateReports exS).2.1.cols.length = 9) := by
  decide

/-- C4 (amended): the summary table has exactly `N + 1` rows (`N` = Teach
roster size, plus the synthetic Total row) and exactly 10 columns: sequence,
unit id, unit name, the six category totals, and the grand total. -/
theorem summary_shape (s : SixTbl)
    (hname : ∀ t ∈ s.toList, "name" ∉ t.cols)
    (hnd : ∀ t ∈ s.toList, t.cids.Nodup) :
    (generateReports s).2.1.rows.length = s.teach.rows.length + 1 ∧
    (generateReports s).2.1.cols
      = ["S.No", "college_id", "college_name", "teach", "engage", "assess", "track",
         "analyse", "remediate", "total"] := by
  rw [generateReports, dropNames_eq_self s hname]
  constructor
  · simp only [buildSummaryT]
    rw [List.length_append, realRowsOf, numberSorted_length, (sortRowsDesc_perm _).length_eq,
      presortRows_eq s hnd, List.length_map, List.length_singleton]
  · simp only [buildSummaryT]
    rw [attachAll_eq s hnd]
    rfl

theorem summary_shape_witness :
    (∀ t ∈ exS.toList, "name" ∉ t.cols) ∧ (∀ t ∈ exS.toList, t.cids.Nodup) ∧
      ((generateReports exS).2.1.rows.length = exS.teach.rows.length + 1 ∧
       (generateReports exS).2.1.cols
         = ["S.No", "college_id", "college_name", "teach", "engage", "assess", "track",
            "analyse", "remediate", "total"]) :=
  ⟨by decide, by decide, summary_shape exS (by decide) (by decide)⟩

/-! ## Claim C8 -/

/-- C8 counterexample: on a concrete input whose seed roster (Teach) table
has no rows, `generate_reports` does not fail: it returns a summary table,
consisting of the single synthetic Total row. -/
theorem empty_roster_cex :
    (generateReports emptySix).2.1.rows.length = 1 ∧
    (generateReports emptySix).2.1.rows.map SRow.sno = [PCell.str "Total"] := by
  decide

/-- C8 (amended): if the seed roster table has no rows the pipeline does not
raise any error; it returns a summary table consisting solely of the
synthetic Total row with every numeric column equal to 0. -/
theorem empty_roster_total_only (s : SixTbl) (h : s.teach.rows = []) :
    (generateReports s).2.1.rows
      = [⟨PCell.str "Total", PCell.str "-", "Overall Total", [0, 0, 0, 0, 0, 0], 0⟩] := by
  have h1 : (dropNameCol s.teach).rows = [] := dropNameCol_rows_nil _ h
  have h2 : (attachAll s.dropNames).rows = [] := by
    rw [attachAll]
    refine foldl_attachCat_rows_nil _ _ ?_
    simp [rosterAcc, SixTbl.dropNames, h1]
  simp only [generateReports, buildSummaryT, realRowsOf, presortRows, h2]
  decide

theorem empty_roster_total_only_witness :
    emptySix.teach.rows = [] ∧
      (generateReports emptySix).2.1.rows
        = [⟨PCell.str "Total", PCell.str "-", "Overall Total", [0, 0, 0, 0, 0, 0], 0⟩] :=
  ⟨rfl, empty_roster_total_only emptySix rfl⟩

/-! ## Claim C9 -/

/-- C9: after the `.astype(int)` loop every one of the seven numeric summary
columns (the six category totals and the grand total) has integer dtype —
no `float64` column survives into the output — and the Total row, appended
after the coercion, is the column-wise sum of the already-coerced rows. -/
theorem summary_integer_dtypes (s : SixTbl) :
    (generateReports s).2.1.dtys = List.replicate 7 false ∧
    (generateReports s).2.1.rows.getLast? = some (totalRowOf (realRowsOf s.dropNames)) := by
  constructor
  · simp only [generateReports, buildSummaryT]
    rw [map_const_eq_replicate]
    have hlen : (presortDtys s.dropNames).length = 7 := by
      simp [presortDtys, SixTbl.pairs, SixTbl.toList, catNames]
    rw [hlen]
  · simp only [generateReports, buildSummaryT]
    exact List.getLast?_concat _

/-! ## Summation lemmas for the conservation claim -/

theorem pairs_length (s : SixTbl) : s.pairs.length = 6 := by
  cases s
  rfl

theorem sum_findsum_over_roster (roster : List TRow) (trows : List TRow)
    (hros : (roster.map TRow.cid).Nodup) (hnd : (trows.map TRow.cid).Nodup)
    (hsub : ∀ srow ∈ trows, srow.cid ∈ roster.map TRow.cid) :
    (roster.map (fun r =>
      ((trows.find? (fun srow => srow.cid = r.cid)).map (fun srow => srow.vals.sum)).getD 0)).sum
      = (trows.map (fun srow => srow.vals.sum)).sum := by
  induction trows with
  | nil => simp
  | cons srow rest ih =>
      rw [List.map_cons, List.nodup_cons] at hnd
      have hpt : ∀ r ∈ roster,
          (((srow :: rest).find? (fun x => x.cid = r.cid)).map (fun x => x.vals.sum)).getD 0
            = ((rest.find? (fun x => x.cid = r.cid)).map (fun x => x.vals.sum)).getD 0
              + (if TRow.cid r = srow.cid then srow.vals.sum else 0) := by
        intro r _
        by_cases hc : srow.cid = r.cid
        · rw [List.find?_cons_of_pos _ (by simpa using hc), if_pos hc.symm]
          have hrest : rest.find? (fun x => x.cid = r.cid) = none := by
            rw [List.find?_eq_none]
            intro x hx hpx
            have : x.cid = r.cid := by simpa using hpx
            exact hnd.1 (hc ▸ this ▸ List.mem_map_of_mem TRow.cid hx)
          rw [hrest]
          simp
        · rw [List.find?_cons_of_neg _ (by simpa using hc),
            if_neg (fun he => hc he.symm), add_zero]
      rw [List.map_congr_left hpt, List.sum_map_add]
      rw [ih hnd.2 (fun x hx => hsub x (by simp [hx]))]
      rw [sum_map_ite_single roster TRow.cid srow.cid srow.vals.sum hros
        (hsub srow (by simp))]
      rw [List.map_cons, List.sum_cons]
      ring

theorem sum_lookup_over_roster (roster : List TRow) (t : Tbl)
    (hros : (roster.map TRow.cid).Nodup) (hnd : t.cids.Nodup)
    (hsub : ∀ srow ∈ t.rows, srow.cid ∈ roster.map TRow.cid) :
    (roster.map (fun r => (lookupCatTotal t r.cid).getD 0)).sum
      = (t.rows.map (fun srow => srow.vals.sum)).sum := by
  simp only [lookupCatTotal]
  exact sum_findsum_over_roster roster t.rows hros hnd hsub

theorem realRows_map_total (s : SixTbl) (hnd : ∀ t ∈ s.toList, t.cids.Nodup) :
    ((realRowsOf s).map SRow.total).sum
      = (s.teach.rows.map (fun r => unitTotal s r.cid)).sum := by
  rw [realRowsOf, numberSorted_map_total]
  have hp := (sortRowsDesc_perm (presortRows s)).map PRow.total
  rw [hp.sum_eq, presortRows_eq s hnd, List.map_map]
  rfl

theorem realRows_cats_prop (s : SixTbl) (hnd : ∀ t ∈ s.toList, t.cids.Nodup) :
    ∀ r ∈ realRowsOf s, r.cats.length = 6 ∧ r.cats.sum = r.total := by
  intro r hr
  rcases numberSorted_mem 1 _ r hr with ⟨p, hp, _, hcats, htot⟩
  have hp2 : p ∈ presortRows s := (sortRowsDesc_perm _).subset hp
  rw [presortRows_eq s hnd] at hp2
  rcases List.mem_map.mp hp2 with ⟨tr, _, he⟩
  constructor
  · rw [hcats, ← he]
    have : (s.pairs.map (fun q => (lookupCatTotal q.2 tr.cid).getD 0)).length = 6 := by
      rw [List.length_map, pairs_length]
    simpa using this
  · rw [hcats, htot, ← he]
    simp [unitTotal]

theorem totalRow_cats_sum (rs : List SRow)
    (hlen : ∀ r ∈ rs, r.cats.length = 6)
    (hct : ∀ r ∈ rs, r.cats.sum = r.total) :
    (totalRowOf rs).cats.sum = (rs.map SRow.total).sum := by
  simp only [totalRowOf]
  rw [← sum_sum_swap rs (List.range 6) (fun r j => r.cats.getD j 0)]
  refine congrArg List.sum (List.map_congr_left (fun r hr => ?_))
  have h6 : List.range 6 = List.range r.cats.length := by rw [hlen r hr]
  rw [h6, sum_range_getD, hct r hr]

theorem sum_unitTotal_eq_allCells (s : SixTbl)
    (hnd : ∀ t ∈ s.toList, t.cids.Nodup)
    (hsub : ∀ t ∈ s.toList, ∀ srow ∈ t.rows, srow.cid ∈ s.teach.cids) :
    (s.teach.rows.map (fun r => unitTotal s r.cid)).sum = allCellsSum s := by
  have hros : (s.teach.rows.map TRow.cid).Nodup := hnd s.teach (by simp [SixTbl.toList])
  simp only [unitTotal]
  rw [sum_sum_swap s.teach.rows s.pairs (fun r p => (lookupCatTotal p.2 r.cid).getD 0)]
  have hmap : ∀ p ∈ s.pairs,
      (s.teach.rows.map (fun r => (lookupCatTotal p.2 r.cid).getD 0)).sum
        = (p.2.rows.map (fun srow => srow.vals.sum)).sum := by
    intro p hp
    have hmem := (List.of_mem_zip hp).2
    exact sum_lookup_over_roster s.teach.rows p.2 hros (hnd p.2 hmem)
      (fun srow hs => hsub p.2 hmem srow hs)
  rw [List.map_congr_left hmap]
  have hlist : s.pairs.map (fun p => (p.2.rows.map (fun srow => srow.vals.sum)).sum)
      = s.toList.map (fun t => (t.rows.map (fun srow => srow.vals.sum)).sum) := by
    cases s
    rfl
  rw [hlist, allCellsSum]

/-! ## Claim C1 -/

/-- C1: conservation.  For every run (unique per-table keys, every unit of
every category table present in the Teach roster, as every extractor
guarantees), the Total row's grand-total cell equals the sum of all
per-unit `total` values, which equals the sum of the six per-category
grand-sums (the Total row's six category cells), which equals the sum of
every numeric metric cell across all six category tables — exactly. -/
theorem conservation_grand_total (s : SixTbl)
    (hname : ∀ t ∈ s.toList, "name" ∉ t.cols)
    (hnd : ∀ t ∈ s.toList, t.cids.Nodup)
    (hsub : ∀ t ∈ s.toList, ∀ srow ∈ t.rows, srow.cid ∈ s.teach.cids) :
    ∃ trow, (generateReports s).2.1.rows.getLast? = some trow ∧
      trow.total = ((generateReports s).2.1.rows.dropLast.map SRow.total).sum ∧
      trow.cats.sum = ((generateReports s).2.1.rows.dropLast.map SRow.total).sum ∧
      ((generateReports s).2.1.rows.dropLast.map SRow.total).sum = allCellsSum s := by
  rw [generateReports, dropNames_eq_self s hname]
  refine ⟨totalRowOf (realRowsOf s), ?_, ?_, ?_, ?_⟩
  · simp only [buildSummaryT]
    exact List.getLast?_concat _
  · simp only [buildSummaryT, List.dropLast_concat]
    rfl
  · simp only [buildSummaryT, List.dropLast_concat]
    have hprops := realRows_cats_prop s hnd
    exact totalRow_cats_sum _ (fun r hr => (hprops r hr).1) (fun r hr => (hprops r hr).2)
  · simp only [buildSummaryT, List.dropLast_concat]
    rw [realRows_map_total s hnd]
    exact sum_unitTotal_eq_allCells s hnd hsub

theorem conservation_grand_total_witness :
    (∀ t ∈ exS.toList, "name" ∉ t.cols) ∧ (∀ t ∈ exS.toList, t.cids.Nodup) ∧
      (∀ t ∈ exS.toList, ∀ srow ∈ t.rows, srow.cid ∈ exS.teach.cids) ∧
      (∃ trow, (generateReports exS).2.1.rows.getLast? = some trow ∧
        trow.total = ((generateReports exS).2.1.rows.dropLast.map SRow.total).sum ∧
        trow.cats.sum = ((generateReports exS).2.1.rows.dropLast.map SRow.total).sum ∧
        ((generateReports exS).2.1.rows.dropLast.map SRow.total).sum = allCellsSum exS) :=
  ⟨by decide, by decide, by decide,
    conservation_grand_total exS (by decide) (by decide) (by decide)⟩

/-! ## Zero-fill machinery (claim C5) -/

/-- The zero-filled block of cells a right-hand table contributes to the
detail row of unit `c` after `fillna(0)`. -/
def filledSeg (t : Tbl) (c : Int) (n : String) : List Int :=
  (rowSeg t c n).map (fun v => v.getD 0)

theorem filledSeg_length (t : Tbl) (hw : t.WF) (c : Int) (n : String) :
    (filledSeg t c n).length = t.cols.length := by
  rw [filledSeg, rowSeg]
  rcases hfind : t.rows.find? (keyMatch c n) with _ | srow
  · simp
  · have hm := List.mem_of_find?_eq_some hfind
    simp [hw srow hm]

theorem filledSeg_absent (t : Tbl) (c : Int) (n : String) (hc : c ∉ t.cids) :
    filledSeg t c n = t.cols.map (fun _ => (0 : Int)) := by
  rw [filledSeg, rowSeg]
  have hfind : t.rows.find? (keyMatch c n) = none := by
    rw [List.find?_eq_none]
    intro x hx hpx
    simp only [keyMatch, Bool.and_eq_true, decide_eq_true_eq] at hpx
    exact hc (hpx.1 ▸ List.mem_map_of_mem TRow.cid hx)
  rw [hfind]
  simp [List.map_map]

theorem lookupCatTotal_absent (t : Tbl) (u : Int) (hu : u ∉ t.cids) :
    lookupCatTotal t u = none := by
  rw [lookupCatTotal]
  have hfind : t.rows.find? (fun srow => srow.cid = u) = none := by
    rw [List.find?_eq_none]
    intro x hx hpx
    exact hu ((by simpa using hpx : x.cid = u) ▸ List.mem_map_of_mem TRow.cid hx)
  rw [hfind]
  rfl

theorem get?_flatten_seg (c : String) :
    ∀ (ps : List (List String × List Int)) (i : Nat) (pi : List String × List Int),
      ps.get? i = some pi → c ∈ pi.1 →
      (∀ p ∈ ps, p.1.length = p.2.length) →
      ((ps.map Prod.fst).flatten).Nodup →
      ((ps.map Prod.snd).flatten).get? (((ps.map Prod.fst).flatten).findIdx (fun x => x = c))
        = pi.2.get? (pi.1.findIdx (fun x => x = c)) := by
  intro ps
  induction ps with
  | nil => intro i pi h _ _ _; simp at h
  | cons p ps ih =>
      intro i pi hi hc hlen hnd
      simp only [List.map_cons, List.flatten_cons] at hnd ⊢
      match i with
      | 0 =>
          rw [List.get?_cons_zero] at hi
          injection hi with hi
          subst hi
          have hidx : (p.1.findIdx (fun x => x = c)) < p.1.length :=
            List.findIdx_lt_length.mpr ⟨c, hc, by simp⟩
          rw [List.findIdx_append, if_pos hidx,
            List.get?_append (by rw [← hlen p (by simp)]; exact hidx)]
      | Nat.succ j =>
          rw [List.get?_cons_succ] at hi
          have hpimem : pi ∈ ps := List.get?_mem hi
          have hcrest : c ∈ (ps.map Prod.fst).flatten :=
            List.mem_flatten.mpr ⟨pi.1, List.mem_map_of_mem Prod.fst hpimem, hc⟩
          rcases List.nodup_append.mp hnd with ⟨_, hnd2, hdisj⟩
          have hcp : c ∉ p.1 := fun hcp => hdisj hcp hcrest
          have hnlt : ¬ ((p.1.findIdx (fun x => x = c)) < p.1.length) := by
            intro hlt
            rcases List.findIdx_lt_length.mp hlt with ⟨x, hx, hpx⟩
            exact hcp ((by simpa using hpx : x = c) ▸ hx)
          rw [List.findIdx_append, if_neg hnlt]
          have hlen1 : p.1.length = p.2.length := hlen p (by simp)
          rw [List.get?_append_right (by omega)]
          have harith : (ps.map Prod.fst).flatten.findIdx (fun x => x = c) + p.1.length
              - p.2.length = (ps.map Prod.fst).flatten.findIdx (fun x => x = c) := by omega
          rw [harith]
          exact ih j pi hi hc (fun q hq => hlen q (by simp [hq])) hnd2

theorem tail5_get?_of_nth (s : SixTbl) (i : Fin 6) (j : Nat) (hj : (i : Nat) = j + 1) :
    s.tail5.get? j = some (s.nth i) := by
  rcases i with ⟨iv, hv⟩
  simp only [Fin.val_mk] at hj
  subst hj
  have hj5 : j < s.tail5.length := by
    simp only [SixTbl.tail5, List.length_cons, List.length_nil]
    omega
  rw [List.get?_eq_get hj5]
  rfl

theorem pairs_map_get? (s : SixTbl) (u : Int) (i : Fin 6) :
    (s.pairs.map (fun p => (lookupCatTotal p.2 u).getD 0)).get? (i : Nat)
      = some ((lookupCatTotal (s.nth i) u).getD 0) := by
  fin_cases i <;> rfl

theorem nth_zero_eq_teach (s : SixTbl) (i : Fin 6) (h : (i : Nat) = 0) :
    s.nth i = s.teach := by
  fin_cases i
  · rfl
  all_goals exact absurd h (by simp)

/-! ## Claim C5 -/

set_option maxHeartbeats 1600000 in
/-- C5: zero-fill totality.  If a roster unit `u` (a row of the Teach
table) is absent from the `i`-th category table, then in the detail table
the unit's row holds `0` (a value, not `NaN`) in every metric column `c` of
that category, and in the summary table the unit's row holds `0` in that
category-total column. -/
theorem zero_fill_absent_unit (s : SixTbl)
    (hname : ∀ t ∈ s.toList, "name" ∉ t.cols)
    (hw : ∀ t ∈ s.toList, t.WF)
    (hnd : ∀ t ∈ s.toList, t.cids.Nodup)
    (hcols : ((s.toList.map Tbl.cols).flatten).Nodup)
    (u : Int) (r0 : TRow) (hr0 : r0 ∈ s.teach.rows) (hu : r0.cid = u)
    (i : Fin 6) (hui : u ∉ (s.nth i).cids)
    (c : String) (hc : c ∈ (s.nth i).cols) :
    (∃ dr ∈ (generateReports s).1.rows, dr.cid = u ∧
       dr.vals.get? ((generateReports s).1.cols.findIdx (fun x => x = c)) = some 0) ∧
    (∃ sr ∈ (generateReports s).2.1.rows, sr.cid = PCell.int u ∧
       sr.cats.get? (i : Nat) = some 0) := by
  subst hu
  rw [generateReports, dropNames_eq_self s hname]
  have hwt : s.teach.WF := hw s.teach (by simp [SixTbl.toList])
  constructor
  · -- detail table
    have hMcols : (mergedDetail s).cols = s.teach.cols ++ (s.tail5.map Tbl.cols).flatten := by
      rw [mergedDetail_eq s hnd]
    have hMrows : (mergedDetail s).rows = s.teach.rows.map (fun r =>
        ⟨r.cid, r.cname,
         r.vals.map some ++ (s.tail5.map (fun t => rowSeg t r.cid r.cname)).flatten⟩) := by
      rw [mergedDetail_eq s hnd]
    have hmem0 : (⟨r0.cid, r0.cname,
        r0.vals.map some ++ (s.tail5.map (fun t => rowSeg t r0.cid r0.cname)).flatten⟩ : MRow)
        ∈ (mergedDetail s).rows := by
      rw [hMrows]
      exact List.mem_map_of_mem _ hr0
    rcases mem_numberDetail 1
        ((mergedDetail s).rows.map (fun r => (r.cid, r.cname, r.vals.map (fun v => v.getD 0))))
        _ (List.mem_map_of_mem _ hmem0) with ⟨dr, hdr, hcid, hcname2, hvals⟩
    dsimp only at hcid hvals
    refine ⟨dr, hdr, hcid, ?_⟩
    have hvals2 : dr.vals = (((s.teach.cols, r0.vals) ::
        s.tail5.map (fun t => (t.cols, filledSeg t r0.cid r0.cname))).map Prod.snd).flatten := by
      rw [hvals]
      simp only [List.map_cons, List.map_map, List.flatten_cons, List.map_append,
        List.map_flatten, Function.comp_def, filledSeg]
      congr 1
      simp
    have hcolsfinal : (buildDetail s, buildSummaryT s, mutTables s).1.cols
        = (((s.teach.cols, r0.vals) ::
            s.tail5.map (fun t => (t.cols, filledSeg t r0.cid r0.cname))).map Prod.fst).flatten := by
      show (mergedDetail s).cols = _
      rw [hMcols]
      simp [List.map_map, Function.comp_def]
    rw [hcolsfinal, hvals2]
    rcases hiv : (i : Nat) with _ | j
    · exact absurd (List.mem_map_of_mem TRow.cid hr0)
        (by rw [nth_zero_eq_teach s i hiv] at hui; exact hui)
    · have hget : ((s.teach.cols, r0.vals) ::
          s.tail5.map (fun t => (t.cols, filledSeg t r0.cid r0.cname))).get? (j + 1)
          = some ((s.nth i).cols, filledSeg (s.nth i) r0.cid r0.cname) := by
        rw [List.get?_cons_succ, List.get?_map, tail5_get?_of_nth s i j hiv]
        rfl
      have hlens : ∀ p ∈ (s.teach.cols, r0.vals) ::
          s.tail5.map (fun t => (t.cols, filledSeg t r0.cid r0.cname)),
          p.1.length = p.2.length := by
        intro p hp
        rcases List.mem_cons.mp hp with hp2 | hp2
        · rw [hp2]
          exact (hwt r0 hr0).symm
        · rcases List.mem_map.mp hp2 with ⟨t, ht, he⟩
          rw [← he]
          have htl : t ∈ s.toList := by
            simp only [SixTbl.tail5, List.mem_cons, List.not_mem_nil, or_false] at ht
            simp only [SixTbl.toList, List.mem_cons]
            tauto
          exact (filledSeg_length t (hw t htl) r0.cid r0.cname).symm
      have hndps : ((((s.teach.cols, r0.vals) ::
          s.tail5.map (fun t => (t.cols, filledSeg t r0.cid r0.cname))).map Prod.fst).flatten).Nodup := by
        have he : (((s.teach.cols, r0.vals) ::
            s.tail5.map (fun t => (t.cols, filledSeg t r0.cid r0.cname))).map Prod.fst).flatten
            = (s.toList.map Tbl.cols).flatten := by
          simp [List.map_map, Function.comp_def, SixTbl.toList, SixTbl.tail5]
        rw [he]
        exact hcols
      rw [get?_flatten_seg c _ (j + 1) _ hget hc hlens hndps]
      rw [filledSeg_absent _ _ _ hui, List.get?_map]
      have hidx : ((s.nth i).cols.findIdx (fun x => x = c)) < (s.nth i).cols.length :=
        List.findIdx_lt_length.mpr ⟨c, hc, by simp⟩
      rw [List.get?_eq_get hidx]
      rfl
  · -- summary table
    have hprow : (⟨r0.cid, r0.cname,
        s.pairs.map (fun p => (lookupCatTotal p.2 r0.cid).getD 0),
        unitTotal s r0.cid⟩ : PRow) ∈ presortRows s := by
      rw [presortRows_eq s hnd]
      exact List.mem_map_of_mem _ hr0
    have hsort := (sortRowsDesc_perm (presortRows s)).mem_iff.mpr hprow
    rcases mem_numberSorted 1 _ _ hsort with ⟨sr, hsr, hcid, hcats, _⟩
    refine ⟨sr, ?_, hcid, ?_⟩
    · show sr ∈ (buildSummaryT s).rows
      rw [buildSummaryT]
      exact List.mem_append_left _ hsr
    · rw [hcats]
      dsimp only
      rw [pairs_map_get? s r0.cid i, lookupCatTotal_absent _ _ hui]
      rfl

theorem zero_fill_absent_unit_witness :
    (∀ t ∈ exS.toList, "name" ∉ t.cols) ∧ (∀ t ∈ exS.toList, t.WF) ∧
      (∀ t ∈ exS.toList, t.cids.Nodup) ∧ ((exS.toList.map Tbl.cols).flatten).Nodup ∧
      (⟨2, "B", [3]⟩ : TRow) ∈ exS.teach.rows ∧ (2 : Int) ∉ (exS.nth 1).cids ∧
      "notif" ∈ (exS.nth 1).cols ∧
      ((∃ dr ∈ (generateReports exS).1.rows, dr.cid = 2 ∧
         dr.vals.get? ((generateReports exS).1.cols.findIdx (fun x => x = "notif")) = some 0) ∧
       (∃ sr ∈ (generateReports exS).2.1.rows, sr.cid = PCell.int 2 ∧
         sr.cats.get? ((1 : Fin 6) : Nat) = some 0)) :=
  ⟨by decide, by decide, by decide, by decide, by decide, by decide, by decide,
    zero_fill_absent_unit exS (by decide) (by decide) (by decide) (by decide)
      2 ⟨2, "B", [3]⟩ (by decide) (by decide) 1 (by decide) "notif" (by decide)⟩

/-! ## Mutation machinery (claim C10) -/

theorem addTotalCol_fresh (nm : String) (t : Tbl) (h : nm ∉ t.cols) :
    addTotalCol nm t = ⟨t.cols ++ [nm], t.dtys ++ [catSumDty t],
      t.rows.map (fun r => ⟨r.cid, r.cname, r.vals ++ [r.vals.sum]⟩)⟩ := by
  rw [addTotalCol, if_neg h]

theorem find?_cid_map_append (t : List TRow) (u : Int) :
    (t.map (fun r => (⟨r.cid, r.cname, r.vals ++ [r.vals.sum]⟩ : TRow))).find?
        (fun srow => srow.cid = u)
      = (t.find? (fun srow => srow.cid = u)).map
          (fun r => (⟨r.cid, r.cname, r.vals ++ [r.vals.sum]⟩ : TRow)) := by
  induction t with
  | nil => rfl
  | cons r rest ih =>
      by_cases h : r.cid = u
      · rw [List.map_cons, List.find?_cons_of_pos _ (by simpa using h),
          List.find?_cons_of_pos _ (by simpa using h)]
        rfl
      · rw [List.map_cons, List.find?_cons_of_neg _ (by simpa using h),
          List.find?_cons_of_neg _ (by simpa using h), ih]

theorem lookupCatTotal_addTotalCol (nm : String) (t : Tbl) (h : nm ∉ t.cols) (u : Int) :
    (lookupCatTotal (addTotalCol nm t) u).getD 0 = 2 * (lookupCatTotal t u).getD 0 := by
  rw [addTotalCol_fresh nm t h]
  simp only [lookupCatTotal]
  rw [find?_cid_map_append]
  rcases hfind : t.rows.find? (fun srow => srow.cid = u) with _ | srow
  · rw [hfind]
    rfl
  · rw [hfind]
    show ((srow.vals ++ [srow.vals.sum]).sum : Int) = 2 * srow.vals.sum
    rw [List.sum_append, List.sum_cons, List.sum_nil]
    ring

theorem unitTotal_mutTables (s : SixTbl)
    (hfresh : ∀ t ∈ s.toList, ∀ nm ∈ catNames, nm ∉ t.cols) (u : Int) :
    unitTotal (mutTables s) u = 2 * unitTotal s u := by
  have hf : ∀ t ∈ s.toList, ∀ nm ∈ catNames,
      (lookupCatTotal (addTotalCol nm t) u).getD 0 = 2 * (lookupCatTotal t u).getD 0 :=
    fun t ht nm hnm => lookupCatTotal_addTotalCol nm t (hfresh t ht nm hnm) u
  have h1 := hf s.teach (by simp [SixTbl.toList]) "teach" (by simp [catNames])
  have h2 := hf s.engage (by simp [SixTbl.toList]) "engage" (by simp [catNames])
  have h3 := hf s.assess (by simp [SixTbl.toList]) "assess" (by simp [catNames])
  have h4 := hf s.track (by simp [SixTbl.toList]) "track" (by simp [catNames])
  have h5 := hf s.analyse (by simp [SixTbl.toList]) "analyse" (by simp [catNames])
  have h6 := hf s.remediate (by simp [SixTbl.toList]) "remediate" (by simp [catNames])
  simp only [unitTotal, SixTbl.pairs, SixTbl.toList, mutTables, catNames,
    List.zip_cons_cons, List.zip_nil_right, List.map_cons, List.map_nil,
    List.sum_cons, List.sum_nil]
  rw [h1, h2, h3, h4, h5, h6]
  ring

theorem addTotalCol_cids (nm : String) (t : Tbl) : (addTotalCol nm t).cids = t.cids := by
  rw [addTotalCol]
  by_cases h : nm ∈ t.cols
  · rw [if_pos h]
    simp [Tbl.cids, List.map_map, Function.comp_def]
  · rw [if_neg h]
    simp [Tbl.cids, List.map_map, Function.comp_def]

theorem mutTables_nodup (s : SixTbl) (hnd : ∀ t ∈ s.toList, t.cids.Nodup) :
    ∀ t ∈ (mutTables s).toList, t.cids.Nodup := by
  intro t ht
  simp only [mutTables, SixTbl.toList, List.mem_cons, List.not_mem_nil, or_false] at ht
  rcases ht with h | h | h | h | h | h <;>
    (subst h; rw [addTotalCol_cids]; exact hnd _ (by simp [SixTbl.toList]))

theorem mutTables_noname (s : SixTbl) (hname : ∀ t ∈ s.toList, "name" ∉ t.cols)
    (hfresh : ∀ t ∈ s.toList, ∀ nm ∈ catNames, nm ∉ t.cols) :
    ∀ t ∈ (mutTables s).toList, "name" ∉ t.cols := by
  intro t ht
  simp only [mutTables, SixTbl.toList, List.mem_cons, List.not_mem_nil, or_false] at ht
  rcases ht with h | h | h | h | h | h <;>
    (subst h
     rw [addTotalCol_fresh _ _ (hfresh _ (by simp [SixTbl.toList]) _ (by simp [catNames]))]
     intro hmem
     rcases List.mem_append.mp hmem with hm | hm
     · exact hname _ (by simp [SixTbl.toList]) hm
     · simp at hm)

theorem summary_row_total (s : SixTbl) (hnd : ∀ t ∈ s.toList, t.cids.Nodup)
    (r0 : TRow) (hr0 : r0 ∈ s.teach.rows) :
    ∃ sr ∈ (buildSummaryT s).rows, sr.cid = PCell.int r0.cid ∧
      sr.total = unitTotal s r0.cid := by
  have hprow : (⟨r0.cid, r0.cname,
      s.pairs.map (fun p => (lookupCatTotal p.2 r0.cid).getD 0),
      unitTotal s r0.cid⟩ : PRow) ∈ presortRows s := by
    rw [presortRows_eq s hnd]
    exact List.mem_map_of_mem _ hr0
  have hsort := (sortRowsDesc_perm (presortRows s)).mem_iff.mpr hprow
  rcases mem_numberSorted 1 _ _ hsort with ⟨sr, hsr, hcid, _, htot⟩
  refine ⟨sr, ?_, hcid, htot⟩
  rw [buildSummaryT]
  exact List.mem_append_left _ hsr

theorem buildSummaryT_cid_nodup (s : SixTbl) (hnd : ∀ t ∈ s.toList, t.cids.Nodup) :
    ((buildSummaryT s).rows.map SRow.cid).Nodup := by
  rw [buildSummaryT]
  simp only [List.map_append]
  rw [realRowsOf, numberSorted_map_cid]
  have hintinj : Function.Injective PCell.int := by
    intro a b h
    injection h
  refine List.nodup_append.mpr ⟨?_, ?_, ?_⟩
  · have hperm := (sortRowsDesc_perm (presortRows s)).map (fun r => PCell.int r.cid)
    refine hperm.symm.nodup ?_
    rw [presortRows_eq s hnd, List.map_map]
    have he : ((fun r : PRow => PCell.int r.cid) ∘ (fun r : TRow =>
        (⟨r.cid, r.cname, s.pairs.map (fun p => (lookupCatTotal p.2 r.cid).getD 0),
          unitTotal s r.cid⟩ : PRow))) = fun r : TRow => PCell.int r.cid := by
      funext r
      rfl
    rw [he, show (fun r : TRow => PCell.int r.cid)
        = (PCell.int ∘ TRow.cid) from rfl, ← List.map_map]
    exact (hnd s.teach (by simp [SixTbl.toList])).map hintinj
  · show ([(totalRowOf (numberSorted 1 (sortRowsDesc (presortRows s)))).cid] : List PCell).Nodup
    exact List.nodup_singleton _
  · intro a ha hb
    rcases List.mem_map.mp ha with ⟨r, _, he⟩
    have hb2 : a = (totalRowOf (numberSorted 1 (sortRowsDesc (presortRows s)))).cid := by
      simpa using hb
    rw [hb2] at he
    have hstr : (totalRowOf (numberSorted 1 (sortRowsDesc (presortRows s)))).cid
        = PCell.str "-" := rfl
    rw [hstr] at he
    exact absurd he (by simp)

/-- An input whose only metric cell is zero: every grand total is 0. -/
def zeroSix : SixTbl :=
  ⟨⟨["att"], [false], [⟨1, "A", [0]⟩]⟩, emptyTbl, emptyTbl, emptyTbl, emptyTbl, emptyTbl⟩

/-! ## Claim C10 -/

/-- C10 counterexample: when every metric cell is zero, a second invocation
of the pipeline on the mutated tables returns a summary identical to the
first one, so the second run does not always yield different totals. -/
theorem second_run_equal_cex :
    (generateReports (generateReports zeroSix).2.2).2.1 = (generateReports zeroSix).2.1 := by
  decide

/-- C10 (amended): the summary step mutates each of the six input tables in place by
appending a numeric column named after its category holding the row-wise
sum of that table's metric cells; the detail table is computed before the
mutation, from the unmutated tables; and a second invocation of the
pipeline on the mutated table objects counts the appended column into the
new category totals, doubling every unit's grand total, so for any unit
with a nonzero total the second summary differs from the first. -/
theorem summary_mutation_second_run (s : SixTbl)
    (hname : ∀ t ∈ s.toList, "name" ∉ t.cols)
    (hfresh : ∀ t ∈ s.toList, ∀ nm ∈ catNames, nm ∉ t.cols)
    (hnd : ∀ t ∈ s.toList, t.cids.Nodup)
    (u : Int) (r0 : TRow) (hr0 : r0 ∈ s.teach.rows) (hu : r0.cid = u)
    (hnz : unitTotal s u ≠ 0) :
    ((generateReports s).2.2.toList
       = s.pairs.map (fun p =>
           ⟨p.2.cols ++ [p.1], p.2.dtys ++ [catSumDty p.2],
            p.2.rows.map (fun r => ⟨r.cid, r.cname, r.vals ++ [r.vals.sum]⟩)⟩)) ∧
    ((generateReports s).1 = buildDetail s) ∧
    (∃ sr1 ∈ (generateReports s).2.1.rows, sr1.cid = PCell.int u ∧
       sr1.total = unitTotal s u) ∧
    (∃ sr2 ∈ (generateReports (generateReports s).2.2).2.1.rows, sr2.cid = PCell.int u ∧
       sr2.total = 2 * unitTotal s u) ∧
    (generateReports (generateReports s).2.2).2.1 ≠ (generateReports s).2.1 := by
  subst hu
  have hmut : (generateReports s).2.2 = mutTables s := by
    rw [generateReports, dropNames_eq_self s hname]
  have hdet1 : (generateReports s).1 = buildDetail s := by
    rw [generateReports, dropNames_eq_self s hname]
  have hsum1 : (generateReports s).2.1 = buildSummaryT s := by
    rw [generateReports, dropNames_eq_self s hname]
  have hsum2 : (generateReports (mutTables s)).2.1 = buildSummaryT (mutTables s) := by
    rw [generateReports, dropNames_eq_self _ (mutTables_noname s hname hfresh)]
  have hex1 : ∃ sr1 ∈ (buildSummaryT s).rows, sr1.cid = PCell.int r0.cid ∧
      sr1.total = unitTotal s r0.cid := summary_row_total s hnd r0 hr0
  have hr0m : (⟨r0.cid, r0.cname, r0.vals ++ [r0.vals.sum]⟩ : TRow)
      ∈ (mutTables s).teach.rows := by
    show _ ∈ (addTotalCol "teach" s.teach).rows
    rw [addTotalCol_fresh _ _ (hfresh s.teach (by simp [SixTbl.toList]) "teach"
      (by simp [catNames]))]
    exact List.mem_map_of_mem _ hr0
  have hex2 : ∃ sr2 ∈ (buildSummaryT (mutTables s)).rows, sr2.cid = PCell.int r0.cid ∧
      sr2.total = 2 * unitTotal s r0.cid := by
    rcases summary_row_total (mutTables s) (mutTables_nodup s hnd) _ hr0m with
      ⟨sr2, hm2, hc2, ht2⟩
    refine ⟨sr2, hm2, hc2, ?_⟩
    rw [ht2]
    exact unitTotal_mutTables s hfresh r0.cid
  refine ⟨?_, hdet1, ?_, ?_, ?_⟩
  · rw [hmut]
    have e1 := addTotalCol_fresh "teach" s.teach
      (hfresh s.teach (by simp [SixTbl.toList]) _ (by simp [catNames]))
    have e2 := addTotalCol_fresh "engage" s.engage
      (hfresh s.engage (by simp [SixTbl.toList]) _ (by simp [catNames]))
    have e3 := addTotalCol_fresh "assess" s.assess
      (hfresh s.assess (by simp [SixTbl.toList]) _ (by simp [catNames]))
    have e4 := addTotalCol_fresh "track" s.track
      (hfresh s.track (by simp [SixTbl.toList]) _ (by simp [catNames]))
    have e5 := addTotalCol_fresh "analyse" s.analyse
      (hfresh s.analyse (by simp [SixTbl.toList]) _ (by simp [catNames]))
    have e6 := addTotalCol_fresh "remediate" s.remediate
      (hfresh s.remediate (by simp [SixTbl.toList]) _ (by simp [catNames]))
    simp only [mutTables, SixTbl.toList, SixTbl.pairs, catNames, List.zip_cons_cons,
      List.zip_nil_right, List.map_cons, List.map_nil]
    rw [e1, e2, e3, e4, e5, e6]
  · rw [hsum1]
    exact hex1
  · rw [hmut, hsum2]
    exact hex2
  · rw [hmut, hsum2, hsum1]
    intro heq
    rcases hex1 with ⟨sr1, hm1, hc1, ht1⟩
    rcases hex2 with ⟨sr2, hm2, hc2, ht2⟩
    rw [heq] at hm2
    have hsame := eq_of_mem_nodup_map SRow.cid (buildSummaryT s).rows
      (buildSummaryT_cid_nodup s hnd) hm1 hm2 (by rw [hc1, hc2])
    rw [← hsame] at ht2
    rw [ht1] at ht2
    omega

theorem summary_mutation_second_run_witness :
    (∀ t ∈ exS.toList, "name" ∉ t.cols) ∧
      (∀ t ∈ exS.toList, ∀ nm ∈ catNames, nm ∉ t.cols) ∧
      (∀ t ∈ exS.toList, t.cids.Nodup) ∧
      (⟨1, "A", [5]⟩ : TRow) ∈ exS.teach.rows ∧ unitTotal exS 1 ≠ 0 ∧
      (((generateReports exS).2.2.toList
         = exS.pairs.map (fun p =>
             ⟨p.2.cols ++ [p.1], p.2.dtys ++ [catSumDty p.2],
              p.2.rows.map (fun r => ⟨r.cid, r.cname, r.vals ++ [r.vals.sum]⟩)⟩)) ∧
       ((generateReports exS).1 = buildDetail exS) ∧
       (∃ sr1 ∈ (generateReports exS).2.1.rows, sr1.cid = PCell.int 1 ∧
          sr1.total = unitTotal exS 1) ∧
       (∃ sr2 ∈ (generateReports (generateReports exS).2.2).2.1.rows,
          sr2.cid = PCell.int 1 ∧ sr2.total = 2 * unitTotal exS 1) ∧
       (generateReports (generateReports exS).2.2).2.1 ≠ (generateReports exS).2.1) :=
  ⟨by decide, by decide, by decide, by decide, by decide,
    summary_mutation_second_run exS (by decide) (by decide) (by decide)
      1 ⟨1, "A", [5]⟩ (by decide) (by decide) (by decide)⟩

end Teater
